import Mathlib

/-!
Shallow embedding of the lolipop-deploy-tool change-set resolution and
remote reconciliation engine (src/deploy.py), with theorems checking the
natural-language specification against it.

Strings model Python `str`; matching operations work on the underlying
character lists so that Python's `in`, `startswith` and `endswith` are
embedded exactly.
-/

namespace LolipopDeploy

/-- Python `needle in hay` (substring containment). -/
def strContains (needle hay : String) : Bool := decide (needle.data <:+: hay.data)

/-- Python `s.startswith(pre)`. -/
def strStartsWith (pre s : String) : Bool := pre.data.isPrefixOf s.data

/-- Python `s.endswith(suffix)`. -/
def strEndsWith (suffix s : String) : Bool := suffix.data.isSuffixOf s.data

/-- Python `s.startswith(c)` for a single character `c`. -/
def strStartsWithChar (c : Char) (s : String) : Bool :=
  match s.data with
  | [] => false
  | c' :: _ => c' == c

/-- One exclusion pattern applied to one path, as in the body of
`filter_files`: a pattern beginning with `*` matches when the path ends
with the pattern's remainder (`file.endswith(pattern[1:])`); any other
pattern matches when it occurs as a substring (`pattern in file`). -/
def matchesPattern (pattern file : String) : Bool :=
  if strStartsWithChar '*' pattern then (pattern.data.drop 1).isSuffixOf file.data
  else decide (pattern.data <:+: file.data)

/-- A path is excluded when any configured pattern matches it (the inner
loop of `filter_files` with its early `break`). -/
def shouldExclude (patterns : List String) (file : String) : Bool :=
  patterns.any fun p => matchesPattern p file

/-- `LolipopDeployTool.filter_files`: keeps, in order, the paths no
exclusion pattern matches. -/
def filter_files (patterns : List String) (files : List String) : List String :=
  files.filter fun f => !shouldExclude patterns f

/-- A resolved change-set: the two path lists returned by
`get_changed_files`. -/
structure ChangeSet where
  upload : List String
  delete : List String
deriving DecidableEq, Repr

/-- The outputs of the two git queries `deploy.py` consumes: the lines of
`git diff --name-status from..HEAD`, each already split at tab characters,
and the lines of `git ls-files`. -/
structure GitState where
  diffLines : List (List String)
  lsFiles : List String

/-- The classification loop of `get_changed_files` over the split diff
lines: status `R*` unpacks exactly three fields and records the old path
as deleted and the new path as added; status `D*` records `parts[1]` as
deleted; every other status records `parts[1]` as added or modified.
`none` models the uncaught `ValueError`/`IndexError` a malformed line
would raise. -/
def processDiffLines : List (List String) → Option (List String × List String)
  | [] => some ([], [])
  | parts :: rest =>
    match parts with
    | [] => none
    | status :: restParts =>
      if strStartsWithChar 'R' status then
        match restParts with
        | [oldPath, newPath] =>
          (processDiffLines rest).map fun ud => (newPath :: ud.1, oldPath :: ud.2)
        | _ => none
      else if strStartsWithChar 'D' status then
        match restParts with
        | p :: _ => (processDiffLines rest).map fun ud => (ud.1, p :: ud.2)
        | [] => none
      else
        match restParts with
        | p :: _ => (processDiffLines rest).map fun ud => (p :: ud.1, ud.2)
        | [] => none

/-- `LolipopDeployTool.get_changed_files`: with a baseline commit, classify
the diff lines and filter both sets independently; without one, the upload
set is the filtered `git ls-files` output and the delete set is empty. -/
def get_changed_files (patterns : List String) (git : GitState)
    (from_commit : Option String) : Option ChangeSet :=
  match from_commit with
  | some _ =>
    (processDiffLines git.diffLines).map fun ud =>
      { upload := filter_files patterns ud.1, delete := filter_files patterns ud.2 }
  | none => some { upload := filter_files patterns git.lsFiles, delete := [] }

/-- A diff entry at the level the spec describes: added, modified, deleted,
or renamed (with git's similarity score making up the rest of the status
field). -/
inductive DiffEntry where
  | added (path : String)
  | modified (path : String)
  | deleted (path : String)
  | renamed (oldPath newPath : String) (score : String)
deriving DecidableEq

/-- How each spec-level diff entry appears as a tab-split
`git diff --name-status` line. -/
def renderDiffLine : DiffEntry → List String
  | .added p => ["A", p]
  | .modified p => ["M", p]
  | .deleted p => ["D", p]
  | .renamed o n score => ["R" ++ score, o, n]

/-- Modelled from the spec: the upload half of its diff classification
(modified/added → upload, renamed → new path in upload). -/
def specUploads : List DiffEntry → List String
  | [] => []
  | .added p :: rest => p :: specUploads rest
  | .modified p :: rest => p :: specUploads rest
  | .deleted _ :: rest => specUploads rest
  | .renamed _ n _ :: rest => n :: specUploads rest

/-- Modelled from the spec: the delete half of its diff classification
(deleted → delete, renamed → old path in delete). -/
def specDeletes : List DiffEntry → List String
  | [] => []
  | .added _ :: rest => specDeletes rest
  | .modified _ :: rest => specDeletes rest
  | .deleted p :: rest => p :: specDeletes rest
  | .renamed o _ _ :: rest => o :: specDeletes rest

/-- What a local path resolves to (`Path.is_dir()` / `Path.is_file()`). -/
inductive LocalEntry where
  | file
  | dir
deriving DecidableEq

/-- The local filesystem as `deploy` observes it, keyed by
repository-relative POSIX paths (the `local_path` component cancels in
`relative_to`): `kind` models existence tests and `walkFiles` the
`rglob('*')` file walk of a directory, returning repository-relative
paths. -/
structure LocalFS where
  kind : String → Option LocalEntry
  walkFiles : String → List String

/-- Models Python `Path(p).as_posix()` for already-normalized POSIX-style
relative paths (the only form the configuration uses). -/
def asPosix (p : String) : String := p

/-- Models `(PurePosixPath(base) / p).as_posix()` for normalized inputs:
an absolute second argument replaces the base. -/
def joinPosix (base p : String) : String :=
  if strStartsWithChar '/' p then p else base ++ "/" ++ p

/-- Python `set.add`: a membership-preserving insert (the element is
appended only when absent). -/
def setAdd (s : List String) (x : String) : List String :=
  if x ∈ s then s else s ++ [x]

/-- Python `set(l)`: deduplicate a list, keeping first occurrences. -/
def listToSet (l : List String) : List String := l.foldl setAdd []

/-- Python's string ordering: lexicographic comparison of the character
sequences by code point. -/
def charListLe : List Char → List Char → Bool
  | [], _ => true
  | _ :: _, [] => false
  | a :: as, b :: bs =>
    if a.val < b.val then true
    else if b.val < a.val then false
    else charListLe as bs

/-- Python `a <= b` on strings. -/
def strLe (a b : String) : Bool := charListLe a.data b.data

/-- Insertion step of `sortStrings`. -/
def insertSorted (x : String) : List String → List String
  | [] => [x]
  | y :: ys => if strLe x y then x :: y :: ys else y :: insertSorted x ys

/-- Python `sorted` on strings (insertion sort ordered by `strLe`). -/
def sortStrings : List String → List String
  | [] => []
  | x :: xs => insertSorted x (sortStrings xs)

/-- The `always_deploy_files` accumulator of `deploy`: the upload and
delete path sets (Python `set`s, embedded as duplicate-free lists built
with `setAdd`) and the ordered list of remote directories to clear. -/
structure MergeSets where
  upload : List String
  delete : List String
  dirsToClear : List String
deriving DecidableEq

/-- One iteration of the `always_deploy_files` loop in `deploy`: a path
that does not exist locally is skipped with a warning; a directory records
its remote mapping in the clear list, prunes from `delete` every path
under it (prefix match on the relative path plus `/`), and adds its walked
files to `upload`; a single file is added to `upload` unconditionally. -/
def mergeStep (fs : LocalFS) (remote_path : String) (acc : MergeSets)
    (path_str : String) : MergeSets :=
  match fs.kind path_str with
  | none => acc
  | some .dir =>
    let remoteDir := joinPosix remote_path path_str
    let dirPfx := asPosix path_str ++ "/"
    { upload := (fs.walkFiles path_str).foldl setAdd acc.upload,
      delete := acc.delete.filter fun f => strStartsWith dirPfx f = false,
      dirsToClear := acc.dirsToClear ++ [remoteDir] }
  | some .file =>
    { acc with upload := setAdd acc.upload (asPosix path_str) }

/-- The whole `always_deploy_files` loop of `deploy`, folded left over the
configured paths. -/
def mergeAlwaysSync (fs : LocalFS) (remote_path : String) :
    List String → MergeSets → MergeSets
  | [], acc => acc
  | p :: rest, acc => mergeAlwaysSync fs remote_path rest (mergeStep fs remote_path acc p)

/-- Outcome of one `ftp.delete` attempt as `delete_remote_file` observes
it: success, an `ftplib.error_perm` carrying a message, or any other
exception (which that function does not catch). -/
inductive FtpOutcome where
  | success
  | permError (msg : String)
  | otherError
deriving DecidableEq

/-- Python `"550" in str(e)`, the not-found test of `delete_remote_file`
and `clear_remote_directory`. -/
def contains550 (msg : String) : Bool := strContains "550" msg

/-- The retry loop of `delete_remote_file` with `n` attempts remaining and
`attempt` the current index: success or a 550 permanent error return
`true`; any other permanent error retries; a non-`error_perm` exception
propagates (`Except.error`); exhausting the attempts returns `false`. -/
def deleteAttemptLoop (att : Nat → FtpOutcome) : Nat → Nat → Except Unit Bool
  | 0, _ => .ok false
  | n + 1, attempt =>
    match att attempt with
    | .success => .ok true
    | .permError msg =>
      if contains550 msg then .ok true
      else deleteAttemptLoop att n (attempt + 1)
    | .otherError => .error ()

/-- `LolipopDeployTool.delete_remote_file` with its attempt outcomes given
by `att` (default `retries` is 3 at every call site). -/
def delete_remote_file (att : Nat → FtpOutcome) (retries : Nat) : Except Unit Bool :=
  deleteAttemptLoop att retries 0

/-- Outcome of one `upload_file` attempt: the transfer succeeded, or some
exception was raised (all exceptions are caught and retried there). -/
inductive UploadOutcome where
  | success
  | failure
deriving DecidableEq

/-- The retry loop of `upload_file`: any exception is caught and the
attempt repeated until the attempts run out. -/
def uploadAttemptLoop (att : Nat → UploadOutcome) : Nat → Nat → Bool
  | 0, _ => false
  | n + 1, attempt =>
    match att attempt with
    | .success => true
    | .failure => uploadAttemptLoop att n (attempt + 1)

/-- `LolipopDeployTool.upload_file`: when overwriting is disabled and the
remote file already exists (the `ftp.size` probe succeeds on the first
attempt), the upload is skipped and reported as success; otherwise the
transfer is attempted up to `retries` times. -/
def upload_file (overwrite remoteExists : Bool) (att : Nat → UploadOutcome)
    (retries : Nat) : Bool :=
  if !overwrite && remoteExists then true
  else uploadAttemptLoop att retries 0

/-- Outcome of `clear_remote_directory` on one remote directory as the
FTP session produces it: everything cleared, an `ftplib.error_perm`
reaching the handler with a message, or a non-`error_perm` exception
(uncaught there, so it propagates). -/
inductive ClearOutcome where
  | cleared
  | permError (msg : String)
  | otherError
deriving DecidableEq

/-- `LolipopDeployTool.clear_remote_directory`: success returns `true`; an
`error_perm` whose message contains `550` (directory absent) is trivial
success; any other `error_perm` returns `false`; other exceptions
propagate. -/
def clear_remote_directory : ClearOutcome → Except Unit Bool
  | .cleared => .ok true
  | .permError msg => if contains550 msg then .ok true else .ok false
  | .otherError => .error ()

/-- The remote session's behaviour, as oracles per remote path: the clear
outcome of a directory, the per-attempt delete and upload outcomes of a
file, and whether the `ftp.size` overwrite probe finds it. -/
structure FtpBehavior where
  clearOutcome : String → ClearOutcome
  deleteAtt : String → Nat → FtpOutcome
  uploadAtt : String → Nat → UploadOutcome
  remoteExists : String → Bool

/-- Step 1 of the reconciliation in `deploy`: clear each directory in
order. The boolean result of `clear_remote_directory` is ignored by the
caller; only a propagating exception stops the run. -/
def runClears (ftp : FtpBehavior) : List String → Except Unit Unit
  | [] => .ok ()
  | d :: rest =>
    match clear_remote_directory (ftp.clearOutcome d) with
    | .error e => .error e
    | .ok _ => runClears ftp rest

/-- Step 2 of the reconciliation in `deploy`: delete each file, counting
successes and failures; an uncaught exception propagates. -/
def runDeletes (ftp : FtpBehavior) (remote_path : String) :
    List String → Except Unit (Nat × Nat)
  | [] => .ok (0, 0)
  | f :: rest =>
    match delete_remote_file (ftp.deleteAtt (joinPosix remote_path f)) 3 with
    | .error e => .error e
    | .ok true => (runDeletes ftp remote_path rest).map fun sc => (sc.1 + 1, sc.2)
    | .ok false => (runDeletes ftp remote_path rest).map fun sc => (sc.1, sc.2 + 1)

/-- Step 3 of the reconciliation in `deploy`: upload each file, counting
successes and failures; a path with no local file is skipped with a
warning and counted as a failure. -/
def runUploads (ftp : FtpBehavior) (fs : LocalFS) (overwrite : Bool)
    (remote_path : String) : List String → Nat × Nat
  | [] => (0, 0)
  | f :: rest =>
    let prev := runUploads ftp fs overwrite remote_path rest
    let remote_file := joinPosix remote_path f
    match fs.kind f with
    | none => (prev.1, prev.2 + 1)
    | some _ =>
      if upload_file overwrite (ftp.remoteExists remote_file) (ftp.uploadAtt remote_file) 3
      then (prev.1 + 1, prev.2)
      else (prev.1, prev.2 + 1)

/-- One entry of the `apps` list in `deploy_config.json`. -/
structure AppConfig where
  name : String
  local_path : String
  remote_path : String
  always_deploy_files : List String
deriving DecidableEq

/-- The parts of the configuration `deploy` reads. -/
structure Config where
  exclude_patterns : List String
  overwrite : Bool
  apps : List AppConfig

/-- The deploy history store (`deploy_history.json`) restricted to the
`last_commit` field: an association from application name to its last
successfully deployed commit hash. -/
def lookupLog (log : List (String × String)) (app_name : String) : Option String :=
  (log.find? fun e => e.1 == app_name).map fun e => e.2

/-- Everything outside the program that one `deploy` invocation observes:
the local path and `.git` existence checks, the current commit, the parsed
deploy history, the git query outputs, the local filesystem and the FTP
session behaviour. -/
structure World where
  localPathExists : Bool
  isGitRepo : Bool
  currentCommit : String
  deployLog : List (String × String)
  git : GitState
  fs : LocalFS
  ftp : FtpBehavior

/-- The outcome of one `deploy` run: the returned boolean, the app's
deploy-history record after the run, whether `get_changed_files` was
invoked, whether an FTP session was opened, and the
(uploads, deletions, failures) counters when the reconciliation phase
ran. -/
structure DeployResult where
  success : Bool
  record : Option String
  resolverInvoked : Bool
  ftpOpened : Bool
  counts : Option (Nat × Nat × Nat)
deriving DecidableEq

instance instDecEqExcept {e a : Type} [DecidableEq e] [DecidableEq a] :
    DecidableEq (Except e a)
  | .ok x, .ok y =>
    if h : x = y then isTrue (by rw [h]) else isFalse (by simp [h])
  | .error x, .error y =>
    if h : x = y then isTrue (by rw [h]) else isFalse (by simp [h])
  | .ok _, .error _ => isFalse (by simp)
  | .error _, .ok _ => isFalse (by simp)

/-- The tail of `deploy`'s reconciliation: report the counters, and call
`save_deploy_commit` exactly when the failure counter is zero. -/
def commitStep (oldRecord : Option String) (current : String)
    (counts : Nat × Nat × Nat) : DeployResult :=
  { success := counts.2.2 == 0,
    record := if counts.2.2 == 0 then some current else oldRecord,
    resolverInvoked := true,
    ftpOpened := true,
    counts := some counts }

/-- `LolipopDeployTool.deploy` for one application: validation, the
identical-commit short-circuit, change-set resolution, the
`always_deploy_files` merge, the empty-plan and dry-run exits, and the
clear/delete/upload reconciliation followed by the conditional commit.
`Except.error` models an exception escaping the run. -/
def deploy (cfg : Config) (w : World) (app_name : String)
    (allFlag dry_run : Bool) : Except Unit DeployResult :=
  let oldRecord := lookupLog w.deployLog app_name
  match cfg.apps.find? fun a => a.name == app_name with
  | none => .ok ⟨false, oldRecord, false, false, none⟩
  | some app =>
    if !w.localPathExists then .ok ⟨false, oldRecord, false, false, none⟩
    else if !w.isGitRepo then .ok ⟨false, oldRecord, false, false, none⟩
    else
      let current := w.currentCommit
      let last := if oldRecord == some "" then none else oldRecord
      if last == some current && !allFlag then
        .ok ⟨true, oldRecord, false, false, none⟩
      else
        let baseline := if allFlag || last.isNone then none else last
        match get_changed_files cfg.exclude_patterns w.git baseline with
        | none => .error ()
        | some changes =>
          let up0 := listToSet changes.upload
          let del0 := if allFlag || last.isNone then []
                      else listToSet changes.delete
          let m := mergeAlwaysSync w.fs app.remote_path app.always_deploy_files
                     ⟨up0, del0, []⟩
          let upsL := sortStrings m.upload
          let delsL := sortStrings m.delete
          if upsL.isEmpty && delsL.isEmpty && m.dirsToClear.isEmpty then
            if last != some current then
              .ok ⟨true, some current, true, false, none⟩
            else
              .ok ⟨true, oldRecord, true, false, none⟩
          else if dry_run then
            .ok ⟨true, oldRecord, true, false, none⟩
          else
            match runClears w.ftp m.dirsToClear with
            | .error e => .error e
            | .ok _ =>
              match runDeletes w.ftp app.remote_path delsL with
              | .error e => .error e
              | .ok dd =>
                let uu := runUploads w.ftp w.fs cfg.overwrite app.remote_path upsL
                .ok (commitStep oldRecord current (uu.1, dd.1, dd.2 + uu.2))

/-- A local filesystem in which `f.txt` exists as a single file and
nothing else exists. -/
def fsAlwaysFile : LocalFS :=
  { kind := fun p => if p == "f.txt" then some .file else none,
    walkFiles := fun _ => [] }

/-- A local filesystem with a directory `d` containing the two files
`d/a.txt` and `d/b.txt`. -/
def fsDirCase : LocalFS :=
  { kind := fun p =>
      if p == "d" then some .dir
      else if p == "d/a.txt" || p == "d/b.txt" then some .file
      else none,
    walkFiles := fun p => if p == "d" then ["d/a.txt", "d/b.txt"] else [] }

/-- A remote session on which every directory clear fails with a
non-550 permanent error and everything else succeeds. -/
def ftpClearFail : FtpBehavior :=
  { clearOutcome := fun _ => .permError "553 denied",
    deleteAtt := fun _ _ => .success,
    uploadAtt := fun _ _ => .success,
    remoteExists := fun _ => false }

/-- A remote session on which every delete attempt raises a
non-`error_perm` exception. -/
def ftpDeleteCrash : FtpBehavior :=
  { clearOutcome := fun _ => .cleared,
    deleteAtt := fun _ _ => .otherError,
    uploadAtt := fun _ _ => .success,
    remoteExists := fun _ => false }

/-- A remote session on which every upload attempt fails. -/
def ftpUploadFail : FtpBehavior :=
  { clearOutcome := fun _ => .cleared,
    deleteAtt := fun _ _ => .success,
    uploadAtt := fun _ _ => .failure,
    remoteExists := fun _ => false }

/-- A remote session on which everything succeeds. -/
def ftpAllOk : FtpBehavior :=
  { clearOutcome := fun _ => .cleared,
    deleteAtt := fun _ _ => .success,
    uploadAtt := fun _ _ => .success,
    remoteExists := fun _ => false }

/-- A configuration with one application and the always-sync directory
`d`. -/
def cfgClearFail : Config :=
  { exclude_patterns := [],
    overwrite := true,
    apps := [{ name := "app", local_path := "/local", remote_path := "/remote",
               always_deploy_files := ["d"] }] }

/-- A first-deploy world whose only reconciliation work is clearing and
re-uploading the always-sync directory `d`, against the failing-clear
session. -/
def wClearFail : World :=
  { localPathExists := true, isGitRepo := true, currentCommit := "c1",
    deployLog := [], git := ⟨[], []⟩, fs := fsDirCase, ftp := ftpClearFail }

/-- A configuration with one application and no always-sync paths. -/
def cfgOneApp : Config :=
  { exclude_patterns := [],
    overwrite := true,
    apps := [{ name := "app", local_path := "/local", remote_path := "/remote",
               always_deploy_files := [] }] }

/-- A local filesystem holding only the file `a.txt`. -/
def fsOneFile : LocalFS :=
  { kind := fun p => if p == "a.txt" then some .file else none,
    walkFiles := fun _ => [] }

/-- A world whose diff modifies `a.txt`, with uploads always failing. -/
def wUploadFail : World :=
  { localPathExists := true, isGitRepo := true, currentCommit := "c1",
    deployLog := [("app", "c0")], git := ⟨[["M", "a.txt"]], []⟩,
    fs := fsOneFile, ftp := ftpUploadFail }

/-- A world whose diff modifies `a.txt`, with uploads succeeding. -/
def wUploadOk : World :=
  { localPathExists := true, isGitRepo := true, currentCommit := "c1",
    deployLog := [("app", "c0")], git := ⟨[["M", "a.txt"]], []⟩,
    fs := fsOneFile, ftp := ftpAllOk }

/-- A world whose deploy record already names the current commit. -/
def wNoChanges : World :=
  { localPathExists := true, isGitRepo := true, currentCommit := "c1",
    deployLog := [("app", "c1")], git := ⟨[], []⟩,
    fs := fsOneFile, ftp := ftpAllOk }

theorem processDiffLines_render (entries : List DiffEntry) :
    processDiffLines (entries.map renderDiffLine) =
      some (specUploads entries, specDeletes entries) := by
  induction entries with
  | nil => rfl
  | cons e rest ih =>
    cases e with
    | added p => simp [renderDiffLine, processDiffLines, strStartsWithChar,
        specUploads, specDeletes, ih]
    | modified p => simp [renderDiffLine, processDiffLines, strStartsWithChar,
        specUploads, specDeletes, ih]
    | deleted p => simp [renderDiffLine, processDiffLines, strStartsWithChar,
        specUploads, specDeletes, ih]
    | renamed o n score =>
      have hdata : ("R" ++ score).data = 'R' :: score.data := by
        simp [String.data_append]
      simp [renderDiffLine, processDiffLines, strStartsWithChar, hdata,
        specUploads, specDeletes, ih]

theorem mem_filter_files {patterns files : List String} {f : String}
    (hf : f ∈ files) (hex : shouldExclude patterns f = false) :
    f ∈ filter_files patterns files := by
  refine List.mem_filter.mpr ⟨hf, ?_⟩
  simp [hex]

theorem shouldExclude_eq_false {patterns : List String} {f : String}
    (hall : ∀ p ∈ patterns, matchesPattern p f = false) :
    shouldExclude patterns f = false := by
  simp only [shouldExclude, List.any_eq_false]
  intro p hp
  simp [hall p hp]

theorem renamed_mem_spec {A B s : String} {entries : List DiffEntry}
    (h : DiffEntry.renamed A B s ∈ entries) :
    A ∈ specDeletes entries ∧ B ∈ specUploads entries := by
  induction entries with
  | nil => cases h
  | cons e rest ih =>
    rcases List.mem_cons.mp h with he | hrest
    · subst he
      exact ⟨List.mem_cons_self _ _, List.mem_cons_self _ _⟩
    · have := ih hrest
      cases e <;> exact ⟨by simp [specDeletes, this.1], by simp [specUploads, this.2]⟩

/-- C3: `filter_files` returns an order-preserving subsequence of its
input in which no path matching any configured pattern appears; every
surviving input path is kept; a pattern beginning with `*` matches exactly
the paths whose trailing characters equal the pattern's remainder and any
other pattern matches exactly the paths containing it as a substring; an
empty pattern list returns the input unchanged. -/
theorem filter_files_correct (patterns files : List String) :
    (filter_files patterns files).Sublist files
  ∧ (∀ f ∈ filter_files patterns files, ∀ p ∈ patterns, matchesPattern p f = false)
  ∧ (∀ f ∈ files, (∀ p ∈ patterns, matchesPattern p f = false) →
      f ∈ filter_files patterns files)
  ∧ (∀ p f, matchesPattern p f = true ↔
      ((∃ rest, p.data = '*' :: rest ∧ rest <:+ f.data) ∨
       ((∀ rest, p.data ≠ '*' :: rest) ∧ p.data <:+: f.data)))
  ∧ filter_files [] files = files := by
  refine ⟨List.filter_sublist files, ?_, ?_, ?_, ?_⟩
  · intro f hf p hp
    have hmem := List.mem_filter.mp hf
    have hex : shouldExclude patterns f = false := by
      simpa using hmem.2
    have := List.any_eq_false.mp (by simpa [shouldExclude] using hex)
    simpa using this p hp
  · exact fun f hf hall => mem_filter_files hf (shouldExclude_eq_false hall)
  · intro p f
    unfold matchesPattern
    rcases hd : p.data with _ | ⟨c, rest⟩
    · constructor
      · intro _
        refine .inr ⟨by intro r hr; simp_all, ?_⟩
        exact ⟨[], f.data, by simp⟩
      · intro _
        simp [strStartsWithChar, hd]
    · by_cases hc : c = '*'
      · subst hc
        simp only [strStartsWithChar, hd, beq_self_eq_true, if_true, List.drop_succ_cons,
          List.drop_zero]
        constructor
        · intro h
          exact .inl ⟨rest, rfl, by simpa using h⟩
        · rintro (⟨r, hr, hsuf⟩ | ⟨hne, _⟩)
          · obtain rfl : rest = r := by injection hr
            simpa using hsuf
          · exact absurd rfl (hne rest)
      · have hb : (c == '*') = false := by simpa using hc
        simp only [strStartsWithChar, hd, hb, Bool.false_eq_true, if_false]
        constructor
        · intro h
          refine .inr ⟨?_, by simpa using h⟩
          intro r hr
          exact hc (by injection hr)
        · rintro (⟨r, hr, _⟩ | ⟨_, h⟩)
          · exact absurd (by injection hr) hc
          · simpa using h
  · simp [filter_files, shouldExclude]

/-- Witness for C3 on the spec's own scenario: pattern `*.log` against
`a.txt` and `debug.log`. -/
theorem filter_files_correct_witness :
    "a.txt" ∈ filter_files ["*.log"] ["a.txt", "debug.log"]
  ∧ filter_files [] ["a.txt", "debug.log"] = ["a.txt", "debug.log"]
  ∧ matchesPattern "*.log" "debug.log" = true :=
  ⟨(filter_files_correct ["*.log"] ["a.txt", "debug.log"]).2.2.1 "a.txt"
      (by decide) (by decide),
   (filter_files_correct [] ["a.txt", "debug.log"]).2.2.2.2,
   ((filter_files_correct [] []).2.2.2.1 "*.log" "debug.log").mpr
     (.inl ⟨".log".data, by decide, by decide⟩)⟩

/-- C4: with a baseline present, diff entries are classified exactly as
the spec says — a rename of `A` to `B` records `A` in the delete set and
`B` in the upload set, a deletion goes to the delete set, and every other
status goes to the upload set, the path filter being applied to both sets
independently; in particular a non-excluded renamed pair lands in the
returned sets. -/
theorem get_changed_files_diff_classification (patterns : List String)
    (entries : List DiffEntry) (lsFiles : List String) (c : String) :
    get_changed_files patterns ⟨entries.map renderDiffLine, lsFiles⟩ (some c) =
      some ⟨filter_files patterns (specUploads entries),
            filter_files patterns (specDeletes entries)⟩
  ∧ (∀ A B s, DiffEntry.renamed A B s ∈ entries →
      shouldExclude patterns A = false → shouldExclude patterns B = false →
      A ∈ filter_files patterns (specDeletes entries)
        ∧ B ∈ filter_files patterns (specUploads entries)) := by
  constructor
  · simp [get_changed_files, processDiffLines_render entries]
  · intro A B s hmem hA hB
    have h := renamed_mem_spec hmem
    exact ⟨mem_filter_files h.1 hA, mem_filter_files h.2 hB⟩

/-- Witness for C4: a rename of `A.txt` to `B.txt` resolves to
`delete={A.txt}, upload={B.txt}`. -/
theorem get_changed_files_diff_classification_witness :
    get_changed_files [] ⟨[["R100", "A.txt", "B.txt"]], []⟩ (some "c0") =
      some ⟨["B.txt"], ["A.txt"]⟩
  ∧ "A.txt" ∈ filter_files []
      (specDeletes [DiffEntry.renamed "A.txt" "B.txt" "100"]) := by
  have h := get_changed_files_diff_classification []
    [DiffEntry.renamed "A.txt" "B.txt" "100"] [] "c0"
  refine ⟨?_, (h.2 "A.txt" "B.txt" "100" (by decide) (by decide) (by decide)).1⟩
  have h1 := h.1
  simpa [renderDiffLine, specUploads, specDeletes, filter_files, shouldExclude] using h1

/-- C5: with no baseline revision, the resolved change-set's upload list is
the filtered full tracked-file list and its delete list is empty; the
upload list is an order-preserving subsequence of the tracked files and
keeps every non-excluded tracked file. -/
theorem get_changed_files_no_baseline (patterns : List String) (git : GitState) :
    get_changed_files patterns git none =
      some ⟨filter_files patterns git.lsFiles, []⟩
  ∧ (∀ cs, get_changed_files patterns git none = some cs →
      cs.delete = [] ∧ cs.upload.Sublist git.lsFiles
        ∧ ∀ f ∈ git.lsFiles, shouldExclude patterns f = false → f ∈ cs.upload) := by
  refine ⟨rfl, ?_⟩
  intro cs hcs
  have : cs = ⟨filter_files patterns git.lsFiles, []⟩ := by
    simpa [get_changed_files] using hcs.symm
  subst this
  exact ⟨rfl, List.filter_sublist git.lsFiles,
    fun f hf hex => mem_filter_files hf hex⟩

/-- Witness for C5 on the spec's first-synchronization scenario with files
`a.txt` and `b.txt`. -/
theorem get_changed_files_no_baseline_witness :
    get_changed_files [] ⟨[], ["a.txt", "b.txt"]⟩ none =
      some ⟨["a.txt", "b.txt"], []⟩
  ∧ "a.txt" ∈ (ChangeSet.upload ⟨["a.txt", "b.txt"], []⟩) := by
  have h := get_changed_files_no_baseline [] ⟨[], ["a.txt", "b.txt"]⟩
  have h1 : get_changed_files [] ⟨[], ["a.txt", "b.txt"]⟩ none =
      some ⟨["a.txt", "b.txt"], []⟩ := by
    simpa [filter_files, shouldExclude] using h.1
  exact ⟨h1, ((h.2 ⟨["a.txt", "b.txt"], []⟩ h1).2.2 "a.txt" (by decide) (by decide))⟩

theorem mem_setAdd {s : List String} {x y : String} :
    y ∈ setAdd s x ↔ y ∈ s ∨ y = x := by
  unfold setAdd
  split
  · rename_i hx
    constructor
    · exact Or.inl
    · rintro (h | rfl)
      · exact h
      · exact hx
  · simp

theorem mem_foldl_setAdd {l : List String} {s : List String} {y : String} :
    y ∈ l.foldl setAdd s ↔ y ∈ s ∨ y ∈ l := by
  induction l generalizing s with
  | nil => simp
  | cons x xs ih =>
    rw [List.foldl_cons, ih, mem_setAdd]
    simp only [List.mem_cons]
    tauto

theorem mergeStep_delete_subset (fs : LocalFS) (r : String) (acc : MergeSets)
    (p : String) : (mergeStep fs r acc p).delete ⊆ acc.delete := by
  rcases hk : fs.kind p with _ | e
  · simp [mergeStep, hk]
  · cases e
    · simp [mergeStep, hk]
    · simp only [mergeStep, hk]
      exact fun x hx => (List.mem_filter.mp hx).1

theorem mergeAlwaysSync_delete_subset (fs : LocalFS) (r : String)
    (ps : List String) (acc : MergeSets) :
    (mergeAlwaysSync fs r ps acc).delete ⊆ acc.delete := by
  induction ps generalizing acc with
  | nil => exact fun x hx => hx
  | cons p rest ih =>
    exact fun x hx => mergeStep_delete_subset fs r acc p (ih (mergeStep fs r acc p) hx)

theorem mergeStep_upload_mono (fs : LocalFS) (r : String) (acc : MergeSets)
    (p : String) : acc.upload ⊆ (mergeStep fs r acc p).upload := by
  rcases hk : fs.kind p with _ | e
  · simp [mergeStep, hk]
  · cases e
    · simp only [mergeStep, hk]
      exact fun x hx => mem_setAdd.mpr (.inl hx)
    · simp only [mergeStep, hk]
      exact fun x hx => mem_foldl_setAdd.mpr (.inl hx)

theorem mergeAlwaysSync_upload_mono (fs : LocalFS) (r : String)
    (ps : List String) (acc : MergeSets) :
    acc.upload ⊆ (mergeAlwaysSync fs r ps acc).upload := by
  induction ps generalizing acc with
  | nil => exact fun x hx => hx
  | cons p rest ih =>
    exact fun x hx => ih (mergeStep fs r acc p) (mergeStep_upload_mono fs r acc p hx)

theorem mergeAlwaysSync_dirs_count (fs : LocalFS) (r : String)
    (ps : List String) (acc : MergeSets) (v : String) :
    (mergeAlwaysSync fs r ps acc).dirsToClear.count v =
      acc.dirsToClear.count v +
        ps.countP fun p => (fs.kind p == some LocalEntry.dir) && (joinPosix r p == v) := by
  induction ps generalizing acc with
  | nil => simp [mergeAlwaysSync]
  | cons p rest ih =>
    show (mergeAlwaysSync fs r rest (mergeStep fs r acc p)).dirsToClear.count v = _
    rw [ih]
    rcases hk : fs.kind p with _ | e
    · simp [mergeStep, hk, List.countP_cons]
    · cases e
      · simp [mergeStep, hk, List.countP_cons]
      · simp only [mergeStep, hk, List.countP_cons, List.count_append]
        rw [List.count_singleton]
        simp only [hk, beq_self_eq_true, Bool.true_and]
        by_cases hv : joinPosix r p = v
        · subst hv
          simp
          omega
        · have hb : (joinPosix r p == v) = false := by simpa using hv
          simp [hb]

theorem mergeAlwaysSync_walk_upload (fs : LocalFS) (r : String) {D : String}
    (ps : List String) (acc : MergeSets)
    (hD : fs.kind D = some LocalEntry.dir) (hmem : D ∈ ps) :
    ∀ f ∈ fs.walkFiles D, f ∈ (mergeAlwaysSync fs r ps acc).upload := by
  induction ps generalizing acc with
  | nil => cases hmem
  | cons p rest ih =>
    intro f hf
    rcases List.mem_cons.mp hmem with heq | hrest
    · subst heq
      apply mergeAlwaysSync_upload_mono fs r rest (mergeStep fs r acc D)
      simp only [mergeStep, hD]
      exact mem_foldl_setAdd.mpr (.inr hf)
    · exact ih (mergeStep fs r acc p) hrest f hf

theorem mergeAlwaysSync_delete_cleared (fs : LocalFS) (r : String) {D : String}
    (ps : List String) (acc : MergeSets)
    (hD : fs.kind D = some LocalEntry.dir) (hmem : D ∈ ps) :
    ∀ f ∈ (mergeAlwaysSync fs r ps acc).delete,
      strStartsWith (asPosix D ++ "/") f = false := by
  induction ps generalizing acc with
  | nil => cases hmem
  | cons p rest ih =>
    intro f hf
    rcases List.mem_cons.mp hmem with heq | hrest
    · subst heq
      have hsub := mergeAlwaysSync_delete_subset fs r rest (mergeStep fs r acc D) hf
      simp only [mergeStep, hD, List.mem_filter] at hsub
      simpa using hsub.2
    · exact ih (mergeStep fs r acc p) hrest f hf

/-- C2 counterexample: the upload and delete sets are not always disjoint
after merging. A change-set resolved from a diff that deletes `f.txt`,
merged with the always-sync path `f.txt` that exists locally as a single
file, leaves `f.txt` in both sets: the file branch of the merge loop only
adds to `upload` and never prunes `delete`. -/
theorem mergeAlwaysSync_not_disjoint_cex :
    get_changed_files [] ⟨[["D", "f.txt"]], []⟩ (some "c0") = some ⟨[], ["f.txt"]⟩
  ∧ ¬ (mergeAlwaysSync fsAlwaysFile "/remote" ["f.txt"]
        ⟨[], ["f.txt"], []⟩).upload.Disjoint
      (mergeAlwaysSync fsAlwaysFile "/remote" ["f.txt"] ⟨[], ["f.txt"], []⟩).delete
  ∧ "f.txt" ∈ (mergeAlwaysSync fsAlwaysFile "/remote" ["f.txt"]
        ⟨[], ["f.txt"], []⟩).upload
  ∧ "f.txt" ∈ (mergeAlwaysSync fsAlwaysFile "/remote" ["f.txt"]
        ⟨[], ["f.txt"], []⟩).delete := by
  refine ⟨by decide, ?_, by decide, by decide⟩
  intro hdisj
  exact hdisj (a := "f.txt") (by decide) (by decide)

/-- C2 (amended): after merging, the upload and delete sets are disjoint
provided the incoming change-set sets are disjoint and no always-sync path
that exists locally as a single file already lies in the delete set (a
forced directory resync prunes `delete` of everything under the directory,
and the walked files all live under it, so directory conflicts are always
resolved; single-file always-sync paths are added to `upload` without
being removed from `delete`, which is the one way disjointness can
fail). -/
theorem mergeAlwaysSync_disjoint (fs : LocalFS) (r : String) (ps : List String)
    (acc : MergeSets)
    (hwalk : ∀ d f, f ∈ fs.walkFiles d → strStartsWith (asPosix d ++ "/") f = true)
    (hfiles : ∀ p ∈ ps, fs.kind p = some LocalEntry.file → asPosix p ∉ acc.delete)
    (hdisj : acc.upload.Disjoint acc.delete) :
    (mergeAlwaysSync fs r ps acc).upload.Disjoint
      (mergeAlwaysSync fs r ps acc).delete := by
  induction ps generalizing acc with
  | nil => exact hdisj
  | cons p rest ih =>
    apply ih (mergeStep fs r acc p)
    · intro q hq hkq hmem
      exact hfiles q (List.mem_cons_of_mem p hq) hkq
        (mergeStep_delete_subset fs r acc p hmem)
    · rcases hk : fs.kind p with _ | e
      · simpa [mergeStep, hk] using hdisj
      · cases e
        · simp only [mergeStep, hk]
          intro x hx hxd
          rcases mem_setAdd.mp hx with h | heq
          · exact hdisj h hxd
          · exact hfiles p (List.mem_cons_self p rest) hk (heq ▸ hxd)
        · simp only [mergeStep, hk]
          intro x hx hxd
          have hxd2 := List.mem_filter.mp hxd
          rcases mem_foldl_setAdd.mp hx with h | h
          · exact hdisj h hxd2.1
          · have hpfx := hwalk p x h
            have := hxd2.2
            simp_all

/-- Witness for the amended C2: a single always-sync file not present in
the delete set keeps the merged sets disjoint. -/
theorem mergeAlwaysSync_disjoint_witness :
    (mergeAlwaysSync fsAlwaysFile "/remote" ["f.txt"] ⟨[], ["g.txt"], []⟩).upload.Disjoint
      (mergeAlwaysSync fsAlwaysFile "/remote" ["f.txt"] ⟨[], ["g.txt"], []⟩).delete :=
  mergeAlwaysSync_disjoint fsAlwaysFile "/remote" ["f.txt"] ⟨[], ["g.txt"], []⟩
    (fun _ f hf => absurd hf (List.not_mem_nil f)) (by decide)
    (by intro x hx; cases hx)

/-- C6: for an always-sync path `D` that is locally a directory and whose
remote mapping no other directory entry shares, after merging the clear
list contains `D`\'s remote mapping exactly once, the upload set contains
every file of `D`\'s recursive walk, and the delete set contains no path
under `D` (prefix plus separator); paths that do not exist locally leave
the accumulator unchanged. -/
theorem mergeAlwaysSync_dir_override (fs : LocalFS) (r : String) (ps : List String)
    (acc : MergeSets) (D : String)
    (hD : fs.kind D = some LocalEntry.dir) (hmem : D ∈ ps)
    (huniq : ps.countP
      (fun p => (fs.kind p == some LocalEntry.dir) && (joinPosix r p == joinPosix r D)) = 1)
    (hacc : acc.dirsToClear.count (joinPosix r D) = 0) :
    (mergeAlwaysSync fs r ps acc).dirsToClear.count (joinPosix r D) = 1
  ∧ (∀ f ∈ fs.walkFiles D, f ∈ (mergeAlwaysSync fs r ps acc).upload)
  ∧ (∀ f ∈ (mergeAlwaysSync fs r ps acc).delete,
      strStartsWith (asPosix D ++ "/") f = false)
  ∧ (∀ p, fs.kind p = none → mergeStep fs r acc p = acc) := by
  refine ⟨?_, mergeAlwaysSync_walk_upload fs r ps acc hD hmem,
    mergeAlwaysSync_delete_cleared fs r ps acc hD hmem, ?_⟩
  · rw [mergeAlwaysSync_dirs_count, hacc, huniq]
  · intro p h
    simp [mergeStep, h]

/-- Witness for C6: always-sync directory `d` with two files, starting
from a delete set holding a stale path under `d`. -/
theorem mergeAlwaysSync_dir_override_witness :
    (mergeAlwaysSync fsDirCase "/remote" ["d"] ⟨[], ["d/old.txt"], []⟩).dirsToClear.count
        (joinPosix "/remote" "d") = 1
  ∧ "d/a.txt" ∈ (mergeAlwaysSync fsDirCase "/remote" ["d"] ⟨[], ["d/old.txt"], []⟩).upload := by
  have h := mergeAlwaysSync_dir_override fsDirCase "/remote" ["d"]
    ⟨[], ["d/old.txt"], []⟩ "d" (by decide) (by decide) (by decide) (by decide)
  exact ⟨h.1, h.2.1 "d/a.txt" (by decide)⟩

theorem runClears_error_iff (ftp : FtpBehavior) (dirs : List String) :
    runClears ftp dirs = Except.error () ↔
      ∃ d ∈ dirs, ftp.clearOutcome d = ClearOutcome.otherError := by
  induction dirs with
  | nil => simp [runClears]
  | cons d rest ih =>
    rcases h : ftp.clearOutcome d with _ | m | _
    · simp [runClears, clear_remote_directory, h, ih]
    · by_cases h5 : contains550 m
      · simp [runClears, clear_remote_directory, h, h5, ih]
      · simp [runClears, clear_remote_directory, h, h5, ih]
    · simp [runClears, clear_remote_directory, h]

/-- C7 counterexample: a directory-clear failure does not abort the run.
With the clear of `/remote/d` failing on a non-550 permanent error
(`clear_remote_directory` returns `false`), the run nevertheless proceeds
to the uploads, commits the new revision, and reports success — `deploy`
never reads the boolean that `clear_remote_directory` returns. -/
theorem clear_failure_does_not_abort_cex :
    clear_remote_directory (ftpClearFail.clearOutcome "/remote/d") = Except.ok false
  ∧ deploy cfgClearFail wClearFail "app" false false =
      Except.ok ⟨true, some "c1", true, true, some (2, 0, 0)⟩ := by
  constructor
  · rfl
  · decide

/-- C7 (amended): clearing a remote directory that does not exist
(permanent error whose message contains `550`) is trivial success, and a
non-`error_perm` exception during any clear aborts the run (and nothing
else does); but an FTP permanent-error failure only makes
`clear_remote_directory` return `false`, a value the deploy loop ignores,
so the run proceeds to deletions and uploads and can still commit as
successful. -/
theorem clear_directory_spec (ftp : FtpBehavior) (dirs : List String) (msg : String) :
    clear_remote_directory ClearOutcome.cleared = Except.ok true
  ∧ (contains550 msg = true →
      clear_remote_directory (ClearOutcome.permError msg) = Except.ok true)
  ∧ (contains550 msg = false →
      clear_remote_directory (ClearOutcome.permError msg) = Except.ok false)
  ∧ clear_remote_directory ClearOutcome.otherError = Except.error ()
  ∧ (runClears ftp dirs = Except.error () ↔
      ∃ d ∈ dirs, ftp.clearOutcome d = ClearOutcome.otherError) := by
  refine ⟨rfl, ?_, ?_, rfl, runClears_error_iff ftp dirs⟩
  · intro h
    simp [clear_remote_directory, h]
  · intro h
    simp [clear_remote_directory, h]

/-- Witness for the amended C7: a missing directory is trivial success, a
denied one reports failure. -/
theorem clear_directory_spec_witness :
    clear_remote_directory (ClearOutcome.permError "550 No such file or directory") =
      Except.ok true
  ∧ clear_remote_directory (ClearOutcome.permError "553 denied") = Except.ok false :=
  ⟨(clear_directory_spec ftpAllOk [] "550 No such file or directory").2.1 (by decide),
   (clear_directory_spec ftpAllOk [] "553 denied").2.2.1 (by decide)⟩

theorem deleteAttemptLoop_all_perm (att : Nat → FtpOutcome) :
    ∀ n k, (∀ i, i < n → ∃ m, att (k + i) = FtpOutcome.permError m ∧ contains550 m = false) →
      deleteAttemptLoop att n k = Except.ok false := by
  intro n
  induction n with
  | zero => intro k _; rfl
  | succ n ih =>
    intro k h
    obtain ⟨m, hm, h5⟩ := h 0 (Nat.succ_pos n)
    simp only [Nat.add_zero] at hm
    simp only [deleteAttemptLoop, hm, h5, Bool.false_eq_true, if_false]
    apply ih
    intro i hi
    have := h (i + 1) (Nat.succ_lt_succ hi)
    simpa [Nat.add_comm, Nat.add_assoc, Nat.add_left_comm] using this

/-- C8 counterexample: a transient transport failure during a remote
delete is not retried. `delete_remote_file` catches only `error_perm`;
any other exception on the very first attempt propagates
(`Except.error`), aborting the remaining deletions of the batch instead
of being recorded as a per-file failure. -/
theorem delete_transport_not_retried_cex :
    delete_remote_file (fun _ => FtpOutcome.otherError) 3 = Except.error ()
  ∧ runDeletes ftpDeleteCrash "/remote" ["a.txt", "b.txt"] = Except.error () := by
  constructor
  · rfl
  · rfl

/-- C8 (amended): deleting an already-absent remote file (permanent error
whose message contains `550`) is reported as success; an FTP
permanent-error response is retried up to the configured attempt count
(default 3, with a fixed delay between attempts) and then recorded as a
per-file failure without aborting the remaining deletions; but a
non-`error_perm` (transport) exception is not retried — it propagates and
aborts the run, unlike upload, which retries every exception. -/
theorem delete_remote_file_spec (att : Nat → FtpOutcome) (retries : Nat)
    (msg : String) (ftp : FtpBehavior) (rp f : String) (rest : List String) :
    (∀ n, att 0 = FtpOutcome.success → delete_remote_file att (n + 1) = Except.ok true)
  ∧ (∀ n, att 0 = FtpOutcome.permError msg → contains550 msg = true →
      delete_remote_file att (n + 1) = Except.ok true)
  ∧ ((∀ i, i < retries → ∃ m, att i = FtpOutcome.permError m ∧ contains550 m = false) →
      delete_remote_file att retries = Except.ok false)
  ∧ (∀ n, att 0 = FtpOutcome.otherError → delete_remote_file att (n + 1) = Except.error ())
  ∧ (delete_remote_file (ftp.deleteAtt (joinPosix rp f)) 3 = Except.ok false →
      runDeletes ftp rp (f :: rest) =
        (runDeletes ftp rp rest).map fun sc => (sc.1, sc.2 + 1)) := by
  refine ⟨?_, ?_, ?_, ?_, ?_⟩
  · intro n h
    simp [delete_remote_file, deleteAttemptLoop, h]
  · intro n h h5
    simp [delete_remote_file, deleteAttemptLoop, h, h5]
  · intro h
    exact deleteAttemptLoop_all_perm att retries 0 (by simpa using h)
  · intro n h
    simp [delete_remote_file, deleteAttemptLoop, h]
  · intro h
    simp [runDeletes, h]

/-- Witness for the amended C8: a 550 response is success; three non-550
permanent errors exhaust the retries into a recorded failure. -/
theorem delete_remote_file_spec_witness :
    delete_remote_file (fun _ => FtpOutcome.permError "550 gone") 3 = Except.ok true
  ∧ delete_remote_file (fun _ => FtpOutcome.permError "500 err") 3 = Except.ok false := by
  refine ⟨(delete_remote_file_spec (fun _ => FtpOutcome.permError "550 gone") 3 "550 gone"
      ftpAllOk "/r" "f" []).2.1 2 rfl (by decide), ?_⟩
  exact (delete_remote_file_spec (fun _ => FtpOutcome.permError "500 err") 3 "500 err"
      ftpAllOk "/r" "f" []).2.2.1 fun i _ => ⟨"500 err", rfl, by decide⟩

theorem deploy_ok_counts (cfg : Config) (w : World) (app_name : String)
    (allFlag dry_run : Bool) (r : DeployResult) (c : Nat × Nat × Nat)
    (hr : deploy cfg w app_name allFlag dry_run = Except.ok r)
    (hc : r.counts = some c) :
    r = commitStep (lookupLog w.deployLog app_name) w.currentCommit c := by
  simp only [deploy] at hr
  repeat' split at hr
  all_goals first
    | (simp at hr; done)
    | (injection hr with h; subst h;
       first
         | (simp at hc)
         | (simp only [commitStep, Option.some.injEq] at hc; subst hc; rfl))

/-- C1: for every run whose reconciliation phase executed (the failure
counter exists), a nonzero failure count means `save_deploy_commit` is
not invoked — the deploy record after the run equals the record before it
and the run reports failure — while a zero failure count advances the
record to the current revision identifier and reports success. -/
theorem deploy_commit_iff_no_failures (cfg : Config) (w : World) (app_name : String)
    (allFlag dry_run : Bool) (r : DeployResult) (u d fl : Nat)
    (hr : deploy cfg w app_name allFlag dry_run = Except.ok r)
    (hc : r.counts = some (u, d, fl)) :
    (fl ≠ 0 → r.record = lookupLog w.deployLog app_name ∧ r.success = false)
  ∧ (fl = 0 → r.record = some w.currentCommit ∧ r.success = true) := by
  have h := deploy_ok_counts cfg w app_name allFlag dry_run r (u, d, fl) hr hc
  subst h
  constructor
  · intro hne
    have hb : (fl == 0) = false := by simpa using hne
    simp [commitStep, hb]
  · intro he
    subst he
    simp [commitStep]

/-- Witness for C1: a failing upload leaves the record at `c0`; the same
run with uploads succeeding advances it to `c1`. -/
theorem deploy_commit_iff_no_failures_witness :
    deploy cfgOneApp wUploadFail "app" false false =
      Except.ok ⟨false, some "c0", true, true, some (0, 0, 1)⟩
  ∧ (⟨false, some "c0", true, true, some (0, 0, 1)⟩ : DeployResult).record =
      lookupLog wUploadFail.deployLog "app"
  ∧ deploy cfgOneApp wUploadOk "app" false false =
      Except.ok ⟨true, some "c1", true, true, some (1, 0, 0)⟩
  ∧ (⟨true, some "c1", true, true, some (1, 0, 0)⟩ : DeployResult).record =
      some wUploadOk.currentCommit := by
  refine ⟨by decide, ?_, by decide, ?_⟩
  · exact ((deploy_commit_iff_no_failures cfgOneApp wUploadFail "app" false false
      ⟨false, some "c0", true, true, some (0, 0, 1)⟩ 0 0 1 (by decide) rfl).1
      (by decide)).1
  · exact ((deploy_commit_iff_no_failures cfgOneApp wUploadOk "app" false false
      ⟨true, some "c1", true, true, some (1, 0, 0)⟩ 1 0 0 (by decide) rfl).2 rfl).1

/-- C9: when a deploy record exists, equals the current revision, and the
force-full flag is off, the run returns success immediately: the record is
left unchanged, `get_changed_files` is never invoked, no FTP session is
opened, and no operation counters exist. -/
theorem deploy_short_circuit (cfg : Config) (w : World) (app_name : String)
    (app : AppConfig)
    (hfind : cfg.apps.find? (fun a => a.name == app_name) = some app)
    (hlocal : w.localPathExists = true) (hgit : w.isGitRepo = true)
    (hlast : lookupLog w.deployLog app_name = some w.currentCommit)
    (hne : w.currentCommit ≠ "") :
    deploy cfg w app_name false false =
      Except.ok ⟨true, lookupLog w.deployLog app_name, false, false, none⟩ := by
  have h1 : (lookupLog w.deployLog app_name == some "") = false := by
    simp [hlast, hne]
  simp only [deploy, hfind, hlocal, hgit, h1, hlast]
  simp [hne]

/-- Witness for C9: a second run with no intervening changes
short-circuits. -/
theorem deploy_short_circuit_witness :
    deploy cfgOneApp wNoChanges "app" false false =
      Except.ok ⟨true, lookupLog wNoChanges.deployLog "app", false, false, none⟩ :=
  deploy_short_circuit cfgOneApp wNoChanges "app"
    { name := "app", local_path := "/local", remote_path := "/remote",
      always_deploy_files := [] }
    (by decide) rfl rfl (by decide) (by decide)

theorem runUploads_fail_pos (ftp : FtpBehavior) (fs : LocalFS) (overwrite : Bool)
    (rp : String) (ups : List String) (f : String)
    (hmem : f ∈ ups) (hmiss : fs.kind f = none) :
    0 < (runUploads ftp fs overwrite rp ups).2 := by
  induction ups with
  | nil => cases hmem
  | cons p rest ih =>
    rcases List.mem_cons.mp hmem with heq | hrest
    · subst heq
      simp only [runUploads, hmiss]
      omega
    · have hpos := ih hrest
      rcases hk : fs.kind p with _ | e
      · simp only [runUploads, hk]
        omega
      · simp only [runUploads, hk]
        split <;> simp only [] <;> omega

/-- C10: an upload-set path that does not exist locally at apply time is
skipped and counted as a failure, so the failure counter is positive and
the commit step leaves the deploy record at its prior value and reports
failure. -/
theorem missing_local_file_fails (ftp : FtpBehavior) (fs : LocalFS)
    (overwrite : Bool) (rp : String) (ups : List String) (f : String)
    (hmem : f ∈ ups) (hmiss : fs.kind f = none) :
    0 < (runUploads ftp fs overwrite rp ups).2
  ∧ ∀ oldRecord current us ds df,
      (commitStep oldRecord current
        (us, ds, df + (runUploads ftp fs overwrite rp ups).2)).record = oldRecord
      ∧ (commitStep oldRecord current
        (us, ds, df + (runUploads ftp fs overwrite rp ups).2)).success = false := by
  have hpos := runUploads_fail_pos ftp fs overwrite rp ups f hmem hmiss
  refine ⟨hpos, ?_⟩
  intro oldRecord current us ds df
  have hb : (df + (runUploads ftp fs overwrite rp ups).2 == 0) = false := by
    simp
    omega
  simp [commitStep, hb]

/-- Witness for C10: a single missing local file blocks the commit. -/
theorem missing_local_file_fails_witness :
    0 < (runUploads ftpAllOk fsOneFile true "/remote" ["ghost.txt"]).2
  ∧ (commitStep (some "c0") "c1"
      (0, 0, 0 + (runUploads ftpAllOk fsOneFile true "/remote" ["ghost.txt"]).2)).record =
      some "c0" := by
  have h := missing_local_file_fails ftpAllOk fsOneFile true "/remote" ["ghost.txt"]
    "ghost.txt" (by decide) (by decide)
  exact ⟨h.1, (h.2 (some "c0") "c1" 0 0 0).1⟩

end LolipopDeploy
